import Mathlib

/-!
Verification of `fastapi_app.py`, an employee/department CRUD application.

This file gives a shallow embedding of the application's pure core — the
JSON-backed query store (`load_queries`, `save_queries`, `add_query_if_new`,
`update_queries`, `delete_query`), the entity repositories
(`DepartmentRepository`, `EmployeeRepository`), the seeding routine
(`seed_data`) and the dynamic query evaluator (`run_query` with its inner
`serialize_row`) — and proves theorems checking the specification's claims
against the embedded code.

Conventions of the embedding:
* Python strings are Lean `String`s; `str.strip()` is modelled by `pyStrip`
  (drop ASCII whitespace from both ends).
* The stored-query JSON document is modelled by `QueryFile`: it is absent,
  or present but unparsable, or a parsed array of `{id, query}` records.
* File-system reads/writes become explicit state passing of a `QueryFile`.
* SQLAlchemy sessions become explicit record lists; `random.*` calls and
  `faker` values become oracle functions passed as arguments.
* Python's `eval` (a black box outside the repository) is an arbitrary
  function argument `String → Except String EvalOut`: an exception becomes
  `Except.error` carrying `str(e)`.
-/

namespace FastApiEmp

/-! ### Python `str.strip()` -/

/-- The whitespace characters Python's default `str.strip()` removes
(space, tab, newline, carriage return, vertical tab, form feed). -/
def pySpace (c : Char) : Bool :=
  c == ' ' || c == '\t' || c == '\n' || c == '\r' || c == '\x0b' || c == '\x0c'

/-- Drop trailing characters satisfying `p`. -/
def rdropChars (p : Char → Bool) (l : List Char) : List Char :=
  (l.reverse.dropWhile p).reverse

/-- Strip characters satisfying `p` from both ends. -/
def stripWith (p : Char → Bool) (l : List Char) : List Char :=
  rdropChars p (l.dropWhile p)

/-- Model of Python `str.strip()` with no argument. -/
def pyStrip (s : String) : String :=
  ⟨stripWith pySpace s.data⟩

theorem dropWhile_dropWhile (p : Char → Bool) (l : List Char) :
    (l.dropWhile p).dropWhile p = l.dropWhile p := by
  induction l with
  | nil => rfl
  | cons x xs ih =>
    by_cases h : p x
    · simp [List.dropWhile_cons, h, ih]
    · simp [List.dropWhile_cons, h]

theorem head?_dropWhile (p : Char → Bool) (l : List Char) :
    ∀ x, (l.dropWhile p).head? = some x → p x = false := by
  induction l with
  | nil => intro x h; simp [List.dropWhile] at h
  | cons a as ih =>
    intro x h
    by_cases hp : p a
    · exact ih x (by simpa [List.dropWhile_cons, hp] using h)
    · simp [List.dropWhile_cons, hp] at h
      subst h
      simpa using hp

theorem dropWhile_eq_self_of_head (p : Char → Bool) (l : List Char)
    (h : ∀ x, l.head? = some x → p x = false) : l.dropWhile p = l := by
  cases l with
  | nil => rfl
  | cons a as => simp [List.dropWhile_cons, h a rfl]

theorem dropWhile_suffix_decomp (p : Char → Bool) (l : List Char) :
    ∃ s, s ++ l.dropWhile p = l := by
  induction l with
  | nil => exact ⟨[], rfl⟩
  | cons a as ih =>
    by_cases hp : p a
    · obtain ⟨s, hs⟩ := ih
      exact ⟨a :: s, by simp [List.dropWhile_cons, hp, hs]⟩
    · exact ⟨[], by simp [List.dropWhile_cons, hp]⟩

theorem rdropChars_decomp (p : Char → Bool) (l : List Char) :
    ∃ t, rdropChars p l ++ t = l := by
  obtain ⟨s, hs⟩ := dropWhile_suffix_decomp p l.reverse
  refine ⟨s.reverse, ?_⟩
  have h := congrArg List.reverse hs
  simpa [rdropChars, List.reverse_append] using h

theorem rdropChars_rdropChars (p : Char → Bool) (m : List Char) :
    rdropChars p (rdropChars p m) = rdropChars p m := by
  simp [rdropChars, List.reverse_reverse, dropWhile_dropWhile]

theorem head?_append_of_ne_nil (l t : List Char) (h : l ≠ []) :
    (l ++ t).head? = l.head? := by
  cases l with
  | nil => exact absurd rfl h
  | cons a as => rfl

theorem stripWith_head (p : Char → Bool) (l : List Char) :
    ∀ x, (stripWith p l).head? = some x → p x = false := by
  intro x hx
  unfold stripWith at hx
  obtain ⟨t, ht⟩ := rdropChars_decomp p (l.dropWhile p)
  have hne : rdropChars p (l.dropWhile p) ≠ [] := by
    intro h0
    rw [h0] at hx
    simp at hx
  have hm : (l.dropWhile p).head? = some x := by
    rw [← ht, head?_append_of_ne_nil _ _ hne]
    exact hx
  exact head?_dropWhile p l x hm

theorem stripWith_idem (p : Char → Bool) (l : List Char) :
    stripWith p (stripWith p l) = stripWith p l := by
  have h1 : (stripWith p l).dropWhile p = stripWith p l :=
    dropWhile_eq_self_of_head p _ (stripWith_head p l)
  unfold stripWith at h1 ⊢
  rw [h1, rdropChars_rdropChars]

/-- Stripping is idempotent: an already-stripped string strips to itself. -/
theorem pyStrip_idem (s : String) : pyStrip (pyStrip s) = pyStrip s := by
  apply String.ext
  exact stripWith_idem pySpace s.data

/-! ### Decimal rendering of integers (Python `f"{n}"` for a non-negative int) -/

/-- The decimal digit character for `n < 10`. -/
def digitChar (n : Nat) : Char := Char.ofNat (48 + n)

/-- Decimal digit characters of `n`, most significant first, with explicit
fuel (structural recursion so that the kernel can evaluate it). -/
def natDigitsAux : Nat → Nat → List Char
  | 0, _ => []
  | fuel + 1, n =>
    if n < 10 then [digitChar n] else natDigitsAux fuel (n / 10) ++ [digitChar (n % 10)]

/-- Decimal digit characters of `n`, most significant first. -/
def natDigits (n : Nat) : List Char := natDigitsAux (n + 1) n

/-- Model of Python string interpolation of a non-negative integer. -/
def natToString (n : Nat) : String := ⟨natDigits n⟩

theorem natDigitsAux_congr : ∀ f1 f2 n : Nat, n < f1 → n < f2 →
    natDigitsAux f1 n = natDigitsAux f2 n := by
  intro f1
  induction f1 with
  | zero => intro f2 n h1 _; omega
  | succ f ih =>
    intro f2 n h1 h2
    cases f2 with
    | zero => omega
    | succ g =>
      by_cases hn : n < 10
      · simp [natDigitsAux, hn]
      · simp only [natDigitsAux, if_neg hn]
        have hdiv : n / 10 < n := Nat.div_lt_self (by omega) (by decide)
        rw [ih g (n / 10) (by omega) (by omega)]

theorem natDigits_lt {n : Nat} (h : n < 10) : natDigits n = [digitChar n] := by
  simp [natDigits, natDigitsAux, h]

theorem natDigits_ge {n : Nat} (h : ¬ n < 10) :
    natDigits n = natDigits (n / 10) ++ [digitChar (n % 10)] := by
  have hdiv : n / 10 < n := Nat.div_lt_self (by omega) (by decide)
  have h1 : natDigits n = natDigitsAux n (n / 10) ++ [digitChar (n % 10)] := by
    show (if n < 10 then [digitChar n]
      else natDigitsAux n (n / 10) ++ [digitChar (n % 10)]) = _
    rw [if_neg h]
  rw [h1, natDigitsAux_congr n (n / 10 + 1) (n / 10) (by omega) (by omega)]
  rfl

theorem natDigits_ne_nil (n : Nat) : natDigits n ≠ [] := by
  by_cases h : n < 10
  · rw [natDigits_lt h]; simp
  · rw [natDigits_ge h]; simp

theorem digitChar_inj_lt : ∀ a b : Fin 10, digitChar a.val = digitChar b.val → a = b := by
  decide

theorem digitChar_injective {a b : Nat} (ha : a < 10) (hb : b < 10)
    (h : digitChar a = digitChar b) : a = b := by
  have := digitChar_inj_lt ⟨a, ha⟩ ⟨b, hb⟩ h
  exact congrArg Fin.val this

theorem concat_inj {l₁ l₂ : List Char} {a b : Char}
    (h : l₁ ++ [a] = l₂ ++ [b]) : l₁ = l₂ ∧ a = b := by
  have h' := congrArg List.reverse h
  simp [List.reverse_append] at h'
  exact ⟨by simpa using congrArg List.reverse h'.2, h'.1⟩

theorem natDigits_injective : ∀ n m : Nat, natDigits n = natDigits m → n = m := by
  intro n
  induction n using Nat.strong_induction_on with
  | _ n ih =>
    intro m h
    by_cases hn : n < 10 <;> by_cases hm : m < 10
    · rw [natDigits_lt hn, natDigits_lt hm] at h
      exact digitChar_injective hn hm (by simpa using h)
    · rw [natDigits_lt hn, natDigits_ge hm] at h
      have := congrArg List.length h
      simp at this
      exact absurd this (natDigits_ne_nil (m / 10))
    · rw [natDigits_ge hn, natDigits_lt hm] at h
      have := congrArg List.length h
      simp at this
      exact absurd this (natDigits_ne_nil (n / 10))
    · rw [natDigits_ge hn, natDigits_ge hm] at h
      obtain ⟨h1, h2⟩ := concat_inj h
      have hdiv : n / 10 = m / 10 :=
        ih (n / 10) (Nat.div_lt_self (by omega) (by decide)) (m / 10) h1
      have hmod : n % 10 = m % 10 :=
        digitChar_injective (Nat.mod_lt _ (by decide)) (Nat.mod_lt _ (by decide)) h2
      omega

theorem natToString_injective {n m : Nat} (h : natToString n = natToString m) : n = m :=
  natDigits_injective n m (congrArg String.data h)

/-! ### Query store (`stored_queries.json`) -/

/-- One record of the stored-queries array: `{"id": ..., "query": ...}`. -/
structure StoredQuery where
  id : Nat
  query : String
deriving DecidableEq, Repr

/-- State of the `stored_queries.json` document: missing, present but
unparsable (`json.JSONDecodeError`), or a parsed array of records (the only
shape the program ever writes). -/
inductive QueryFile where
  | absent : QueryFile
  | corrupt : QueryFile
  | valid : List StoredQuery → QueryFile
deriving DecidableEq, Repr

/-- `load_queries`: if the file does not exist, write `[]` and return `[]`;
if it fails to parse, overwrite it with `[]` and return `[]`; otherwise
return its records. Returns the loaded records paired with the file state
afterwards. -/
def load_queries : QueryFile → List StoredQuery × QueryFile
  | .absent => ([], .valid [])
  | .corrupt => ([], .valid [])
  | .valid rs => (rs, .valid rs)

/-- `save_queries`: overwrite the document with the given records. -/
def save_queries (rs : List StoredQuery) (_f : QueryFile) : QueryFile :=
  .valid rs

/-- `max([r["id"] for r in records], default=0)`. -/
def maxId (rs : List StoredQuery) : Nat :=
  rs.foldl (fun a r => max a r.id) 0

/-- `add_query_if_new`: load the records; if some record's stripped text
equals the stripped input, return `False` without modifying anything;
otherwise append `{"id": max id + 1, "query": query.strip()}`, persist, and
return `True`. -/
def add_query_if_new (query : String) (f : QueryFile) : Bool × QueryFile :=
  let lf := load_queries f
  if lf.1.any (fun r => pyStrip r.query == pyStrip query) then
    (false, lf.2)
  else
    (true, save_queries (lf.1 ++ [⟨maxId lf.1 + 1, pyStrip query⟩]) lf.2)

/-- `POST /delete-query/{query_id}`: keep exactly the records whose id
differs from `query_id`, then persist. -/
def delete_query (query_id : Nat) (f : QueryFile) : QueryFile :=
  let lf := load_queries f
  save_queries (lf.1.filter (fun q => q.id != query_id)) lf.2

/-- `POST /update-queries`: for each stored record, if the submitted form
holds a field named `query_{id}`, replace the record's text by the submitted
value as-is (no strip, no duplicate check), then persist. The form is a list
of key/value pairs. -/
def update_queries (form : List (String × String)) (f : QueryFile) : QueryFile :=
  let lf := load_queries f
  save_queries
    (lf.1.map fun q =>
      match form.lookup ("query_" ++ natToString q.id) with
      | some v => { q with query := v }
      | none => q)
    lf.2

/-- The specification's Query Store invariant: no two stored records have
identical text after stripping leading/trailing whitespace. -/
def TrimmedUnique (rs : List StoredQuery) : Prop :=
  (rs.map fun r => pyStrip r.query).Nodup

instance (rs : List StoredQuery) : Decidable (TrimmedUnique rs) := by
  unfold TrimmedUnique; infer_instance

/-! #### Helper lemmas shared by the claim theorems -/

theorem add_query_if_new_not_found (rs : List StoredQuery) (q : String)
    (h : ∀ r ∈ rs, pyStrip r.query ≠ pyStrip q) :
    add_query_if_new q (.valid rs)
      = (true, .valid (rs ++ [⟨maxId rs + 1, pyStrip q⟩])) := by
  have hany : (rs.any fun r => pyStrip r.query == pyStrip q) = false := by
    rw [List.any_eq_false]
    intro r hr
    simpa [beq_iff_eq] using h r hr
  simp [add_query_if_new, load_queries, save_queries, hany]

theorem add_query_if_new_found (rs : List StoredQuery) (q : String) (r0 : StoredQuery)
    (hr : r0 ∈ rs) (h : pyStrip r0.query = pyStrip q) :
    add_query_if_new q (.valid rs) = (false, .valid rs) := by
  have hany : (rs.any fun r => pyStrip r.query == pyStrip q) = true := by
    rw [List.any_eq_true]
    exact ⟨r0, hr, by simpa [beq_iff_eq] using h⟩
  simp [add_query_if_new, load_queries, save_queries, hany]

/-- The records held by a query-file state (empty when no parsed document). -/
def QueryFile.records : QueryFile → List StoredQuery
  | .valid rs => rs
  | .absent => []
  | .corrupt => []

/-- **C5**: `load_queries` on an absent document creates an empty document and
returns the empty sequence; on an unparsable document it overwrites it with an
empty document and returns the empty sequence; a parsable document is returned
as-is. No error is surfaced in any case: the function returns normally on
every file state. -/
theorem load_queries_silent_recovery :
    load_queries .absent = ([], .valid []) ∧
    load_queries .corrupt = ([], .valid []) ∧
    ∀ rs, load_queries (.valid rs) = (rs, .valid rs) :=
  ⟨rfl, rfl, fun _ => rfl⟩

/-- **C2**: Query Store id assignment follows the max+1-over-remaining-records
rule: a newly added query receives the maximum stored id plus one (so 1 when
the document is empty); starting empty, adding "A" (id 1), adding "B" (id 2),
deleting id 1, then adding "C" gives "C" the id 3; and after deleting the
maximum-id record the next add reuses that id (here: delete id 2, add "C",
"C" gets id 2). -/
theorem query_id_max_plus_one :
    (∀ rs q, (∀ r ∈ rs, pyStrip r.query ≠ pyStrip q) →
      add_query_if_new q (.valid rs)
        = (true, .valid (rs ++ [⟨maxId rs + 1, pyStrip q⟩]))) ∧
    (add_query_if_new "A" (.valid []) = (true, .valid [⟨1, "A"⟩])) ∧
    (add_query_if_new "B" (.valid [⟨1, "A"⟩]) = (true, .valid [⟨1, "A"⟩, ⟨2, "B"⟩])) ∧
    (delete_query 1 (.valid [⟨1, "A"⟩, ⟨2, "B"⟩]) = .valid [⟨2, "B"⟩]) ∧
    (add_query_if_new "C" (.valid [⟨2, "B"⟩]) = (true, .valid [⟨2, "B"⟩, ⟨3, "C"⟩])) ∧
    (delete_query 2 (.valid [⟨1, "A"⟩, ⟨2, "B"⟩]) = .valid [⟨1, "A"⟩]) ∧
    (add_query_if_new "C" (.valid [⟨1, "A"⟩]) = (true, .valid [⟨1, "A"⟩, ⟨2, "C"⟩])) :=
  ⟨fun rs q h => add_query_if_new_not_found rs q h,
    by decide, by decide, by decide, by decide, by decide, by decide⟩

theorem query_id_max_plus_one_witness :
    add_query_if_new "C" (.valid [⟨2, "B"⟩]) = (true, .valid [⟨2, "B"⟩, ⟨3, "C"⟩]) := by
  rw [query_id_max_plus_one.1 [⟨2, "B"⟩] "C" (by decide)]
  decide

/-- **C4**: calling `add_query_if_new` with the same text twice in a row:
when the stripped text is not already stored, the first call returns `true`
and increases the stored record count by exactly 1, and the second call
(whose stripped text now matches the record just stored) returns `false` and
leaves the stored records unchanged. -/
theorem add_query_twice (rs : List StoredQuery) (q : String)
    (h : ∀ r ∈ rs, pyStrip r.query ≠ pyStrip q) :
    (add_query_if_new q (.valid rs)).1 = true ∧
    ((add_query_if_new q (.valid rs)).2).records.length = rs.length + 1 ∧
    add_query_if_new q ((add_query_if_new q (.valid rs)).2)
      = (false, (add_query_if_new q (.valid rs)).2) := by
  rw [add_query_if_new_not_found rs q h]
  refine ⟨rfl, by simp [QueryFile.records], ?_⟩
  exact add_query_if_new_found _ q ⟨maxId rs + 1, pyStrip q⟩ (by simp) (pyStrip_idem q)

theorem add_query_twice_witness :
    (add_query_if_new "X" (.valid ([] : List StoredQuery))).1 = true ∧
    ((add_query_if_new "X" (.valid ([] : List StoredQuery))).2).records.length
      = ([] : List StoredQuery).length + 1 ∧
    add_query_if_new "X" ((add_query_if_new "X" (.valid ([] : List StoredQuery))).2)
      = (false, (add_query_if_new "X" (.valid ([] : List StoredQuery))).2) :=
  add_query_twice [] "X" (by decide)

/-- **C10**: whenever `add_query_if_new` appends a record, the appended
record's `query` field equals the input with leading and trailing whitespace
stripped, and every persisted record either was already stored or carries the
stripped text — the raw untrimmed input is never persisted. -/
theorem add_query_persists_stripped (rs : List StoredQuery) (q : String)
    (h : (add_query_if_new q (.valid rs)).1 = true) :
    (add_query_if_new q (.valid rs)).2
      = .valid (rs ++ [⟨maxId rs + 1, pyStrip q⟩]) ∧
    ∀ r ∈ ((add_query_if_new q (.valid rs)).2).records,
      r ∈ rs ∨ r.query = pyStrip q := by
  by_cases hex : ∀ r ∈ rs, pyStrip r.query ≠ pyStrip q
  · rw [add_query_if_new_not_found rs q hex]
    refine ⟨rfl, ?_⟩
    intro r hr
    simp [QueryFile.records] at hr
    rcases hr with hr | hr
    · exact Or.inl hr
    · subst hr
      exact Or.inr rfl
  · push_neg at hex
    obtain ⟨r0, hr0, he⟩ := hex
    rw [add_query_if_new_found rs q r0 hr0 he] at h
    exact absurd h (by simp)

theorem add_query_persists_stripped_witness :
    (add_query_if_new " X " (.valid ([] : List StoredQuery))).2 = .valid [⟨1, "X"⟩] := by
  rw [(add_query_persists_stripped [] " X " (by decide)).1]
  decide

/-- **C3 counterexample**: the claim that every Query Store operation
preserves the no-duplicate-trimmed-text invariant is false: starting from
`[{1,"A"},{2,"B"}]`, which satisfies the invariant, `update_queries` with the
form field `query_1 = "B"` produces `[{1,"B"},{2,"B"}]`, which violates it. -/
theorem update_queries_breaks_trimmed_unique :
    TrimmedUnique [⟨1, "A"⟩, ⟨2, "B"⟩] ∧
    update_queries [("query_1", "B")] (.valid [⟨1, "A"⟩, ⟨2, "B"⟩])
      = .valid [⟨1, "B"⟩, ⟨2, "B"⟩] ∧
    ¬ TrimmedUnique [⟨1, "B"⟩, ⟨2, "B"⟩] := by decide

/-- **C3 (amended)**: starting from a document in which no two records share
the same stripped text, `add_query_if_new`, `delete_query` and `load_queries`
leave a document satisfying that invariant; `update_queries` does not
preserve it (see the counterexample). -/
theorem store_ops_preserve_trimmed_unique (rs : List StoredQuery)
    (h : TrimmedUnique rs) :
    (∀ q, TrimmedUnique ((add_query_if_new q (.valid rs)).2).records) ∧
    (∀ i, TrimmedUnique (delete_query i (.valid rs)).records) ∧
    TrimmedUnique (load_queries (.valid rs)).1 ∧
    TrimmedUnique (load_queries .absent).1 ∧
    TrimmedUnique (load_queries .corrupt).1 := by
  refine ⟨?_, ?_, h, by decide, by decide⟩
  · intro q
    by_cases hex : ∀ r ∈ rs, pyStrip r.query ≠ pyStrip q
    · rw [add_query_if_new_not_found rs q hex]
      show TrimmedUnique (rs ++ [⟨maxId rs + 1, pyStrip q⟩])
      unfold TrimmedUnique
      rw [List.map_append]
      simp only [List.map_cons, List.map_nil]
      rw [pyStrip_idem]
      rw [List.nodup_append]
      refine ⟨h, List.nodup_singleton _, ?_⟩
      intro a ha hb
      simp at hb
      subst hb
      obtain ⟨r, hr, hre⟩ := List.mem_map.mp ha
      exact hex r hr hre
    · push_neg at hex
      obtain ⟨r0, hr0, he⟩ := hex
      rw [add_query_if_new_found rs q r0 hr0 he]
      exact h
  · intro i
    show TrimmedUnique ((rs.filter fun q => q.id != i))
    unfold TrimmedUnique at h ⊢
    exact h.sublist ((rs.filter_sublist).map _)

theorem store_ops_preserve_trimmed_unique_witness :
    TrimmedUnique ((add_query_if_new "B" (.valid [⟨1, "A"⟩])).2).records :=
  (store_ops_preserve_trimmed_unique [⟨1, "A"⟩] (by decide)).1 "B"

/-- **C7**: `update_queries` submitted with a form holding exactly the field
`query_{i}` rewrites the text of precisely the records whose id is `i` —
hence of exactly the one matching record when ids are unique — leaving every
other record's id and text and the record order unchanged; when no record has
id `i` the document is unchanged. -/
theorem update_queries_single_field (rs : List StoredQuery) (i : Nat) (t : String) :
    update_queries [("query_" ++ natToString i, t)] (.valid rs)
      = .valid (rs.map fun q => if q.id = i then { q with query := t } else q) ∧
    ((∀ q ∈ rs, q.id ≠ i) →
      update_queries [("query_" ++ natToString i, t)] (.valid rs) = .valid rs) := by
  have key : ∀ q : StoredQuery,
      (List.lookup ("query_" ++ natToString q.id) [("query_" ++ natToString i, t)])
        = if q.id = i then some t else none := by
    intro q
    by_cases hq : q.id = i
    · rw [if_pos hq]
      have hbeq : (("query_" ++ natToString q.id : String)
          == ("query_" ++ natToString i)) = true := by
        rw [beq_iff_eq, hq]
      simp [List.lookup_cons, hbeq]
    · rw [if_neg hq]
      have hne : (("query_" ++ natToString q.id : String)
          == ("query_" ++ natToString i)) = false := by
        rw [beq_eq_false_iff_ne]
        intro hcontra
        have hd := congrArg String.data hcontra
        rw [String.data_append, String.data_append] at hd
        exact hq (natToString_injective (String.ext (List.append_cancel_left hd)))
      simp [List.lookup_cons, hne]
  have hmain : update_queries [("query_" ++ natToString i, t)] (.valid rs)
      = .valid (rs.map fun q => if q.id = i then { q with query := t } else q) := by
    simp only [update_queries, load_queries, save_queries]
    congr 1
    apply List.map_congr_left
    intro q _
    rw [key q]
    by_cases hq : q.id = i
    · simp [hq]
    · simp [hq]
  refine ⟨hmain, fun hno => ?_⟩
  rw [hmain]
  congr 1
  calc rs.map (fun q => if q.id = i then { q with query := t } else q)
      = rs.map id := List.map_congr_left (fun q hq => by rw [if_neg (hno q hq)]; rfl)
    _ = rs := List.map_id rs

theorem update_queries_single_field_witness :
    update_queries [("query_" ++ natToString 7, "y")] (.valid [⟨5, "x"⟩])
      = .valid [⟨5, "x"⟩] :=
  (update_queries_single_field [⟨5, "x"⟩] 7 "y").2 (by decide)

/-! ### Relational store and entity repositories -/

/-- A Python `datetime.date` value. -/
structure PyDate where
  year : Nat
  month : Nat
  day : Nat
deriving DecidableEq, Repr

/-- A row of the `departments` table. Numeric budgets are modelled as
integers; the embedded operations perform no arithmetic on them. -/
structure DepartmentRow where
  id : Nat
  name : String
  location : String
  budget : Int
deriving DecidableEq, Repr

/-- A row of the `employees` table. Both foreign keys are nullable columns:
`dep_id` is declared without `nullable=False` and is set to NULL by the ORM
when the owning department is deleted; `manager_id` is explicitly nullable. -/
structure EmployeeRow where
  id : Nat
  name : String
  age : Option Nat
  email : Option String
  salary : Int
  bonus : Int
  hireDate : PyDate
  active : Bool
  gender : String
  depId : Option Nat
  managerId : Option Nat
deriving DecidableEq, Repr

/-- A row of the `projects` table. -/
structure ProjectRow where
  id : Nat
  name : String
  location : String
  budget : Int
deriving DecidableEq, Repr

/-- A row of the `roles` table. -/
structure RoleRow where
  id : Nat
  name : String
deriving DecidableEq, Repr

/-- The relational store: the four entity tables and the two many-to-many
association tables (`employee_project`, `employee_role` as id pairs). -/
structure Store where
  departments : List DepartmentRow
  employees : List EmployeeRow
  projects : List ProjectRow
  roles : List RoleRow
  employeeProject : List (Nat × Nat)
  employeeRole : List (Nat × Nat)
deriving DecidableEq, Repr

namespace DepartmentRepository

/-- `DepartmentRepository.get_by_id`: first row whose primary key matches. -/
def get_by_id (db : Store) (department_id : Nat) : Option DepartmentRow :=
  db.departments.find? fun d => d.id == department_id

/-- `DepartmentRepository.delete`: look the row up; if present,
`session.delete` it and commit, returning it; otherwise return `None`.
`session.delete` on a `Department` follows the `employees` relationship with
its default cascade: the department row is removed and every employee of
that department has its `dep_id` foreign key set to NULL on flush. Returns
the function's result paired with the store afterwards. -/
def delete (db : Store) (department_id : Nat) : Option DepartmentRow × Store :=
  match get_by_id db department_id with
  | some dep =>
    (some dep,
      { db with
        departments := db.departments.filter fun d => d.id != department_id,
        employees := db.employees.map fun e =>
          if e.depId == some department_id then { e with depId := none } else e })
  | none => (none, db)

end DepartmentRepository

namespace EmployeeRepository

/-- `EmployeeRepository.get_by_id`: first row whose primary key matches. -/
def get_by_id (db : Store) (employee_id : Nat) : Option EmployeeRow :=
  db.employees.find? fun e => e.id == employee_id

/-- `EmployeeRepository.delete`: look the row up; if present,
`session.delete` it and commit, returning it; otherwise return `None`.
`session.delete` on an `Employee` follows its relationships with their
default cascades: the employee row is removed, the employee's rows in the
`employee_project` and `employee_role` secondary tables are deleted, and
every subordinate (employee whose `manager_id` is the deleted id) has its
`manager_id` foreign key set to NULL on flush. -/
def delete (db : Store) (employee_id : Nat) : Option EmployeeRow × Store :=
  match get_by_id db employee_id with
  | some emp =>
    (some emp,
      { db with
        employees := (db.employees.filter fun e => e.id != employee_id).map fun e =>
          if e.managerId == some employee_id then { e with managerId := none } else e,
        employeeProject := db.employeeProject.filter fun pr => pr.1 != employee_id,
        employeeRole := db.employeeRole.filter fun pr => pr.1 != employee_id })
  | none => (none, db)

end EmployeeRepository

/-! #### Generic list lemmas for the repository proofs -/

theorem find?_by_id_none {α : Type} (getId : α → Nat) (l : List α) (i : Nat)
    (h : ∀ d ∈ l, getId d ≠ i) : (l.find? fun d => getId d == i) = none := by
  rw [List.find?_eq_none]
  intro x hx
  simpa [beq_iff_eq] using h x hx

theorem find?_by_id_middle {α : Type} (getId : α → Nat) (l1 : List α) (dep : α)
    (l2 : List α) (i : Nat) (hdep : getId dep = i) (h1 : ∀ d ∈ l1, getId d ≠ i) :
    ((l1 ++ dep :: l2).find? fun d => getId d == i) = some dep := by
  rw [List.find?_append, find?_by_id_none getId l1 i h1]
  simp [List.find?_cons, beq_iff_eq, hdep]

theorem filter_by_id_middle {α : Type} (getId : α → Nat) (l1 : List α) (dep : α)
    (l2 : List α) (i : Nat) (hdep : getId dep = i)
    (h1 : ∀ d ∈ l1, getId d ≠ i) (h2 : ∀ d ∈ l2, getId d ≠ i) :
    ((l1 ++ dep :: l2).filter fun d => getId d != i) = l1 ++ l2 := by
  rw [List.filter_append, List.filter_cons]
  have hd : (getId dep != i) = false := by simp [hdep]
  rw [hd]
  have hl1 : (l1.filter fun d => getId d != i) = l1 :=
    List.filter_eq_self.mpr fun a ha => by simp [h1 a ha]
  have hl2 : (l2.filter fun d => getId d != i) = l2 :=
    List.filter_eq_self.mpr fun a ha => by simp [h2 a ha]
  rw [hl1, hl2]
  simp

/-- **C6**: for both entity repositories (Department, Employee), `delete` on
an id with no matching row returns `None` (not an error) and leaves the store
fully unchanged; `delete` on an existing id removes exactly that row from its
own table and returns the removed row's prior field values, while the ORM's
default cascades apply to the related tables: deleting a department sets the
`dep_id` of its employees to NULL, and deleting an employee removes its
`employee_project`/`employee_role` association rows and sets its
subordinates' `manager_id` to NULL; no other row is affected. -/
theorem entity_delete_absent_or_removes_row :
    (∀ db i, (∀ d ∈ db.departments, d.id ≠ i) →
      DepartmentRepository.delete db i = (none, db)) ∧
    (∀ db i l1 dep l2, db.departments = l1 ++ dep :: l2 → dep.id = i →
      (∀ d ∈ l1, d.id ≠ i) → (∀ d ∈ l2, d.id ≠ i) →
      DepartmentRepository.delete db i
        = (some dep,
          { db with
            departments := l1 ++ l2,
            employees := db.employees.map fun e =>
              if e.depId == some i then { e with depId := none } else e })) ∧
    (∀ db i, (∀ e ∈ db.employees, e.id ≠ i) →
      EmployeeRepository.delete db i = (none, db)) ∧
    (∀ db i l1 emp l2, db.employees = l1 ++ emp :: l2 → emp.id = i →
      (∀ e ∈ l1, e.id ≠ i) → (∀ e ∈ l2, e.id ≠ i) →
      EmployeeRepository.delete db i
        = (some emp,
          { db with
            employees := (l1 ++ l2).map fun e =>
              if e.managerId == some i then { e with managerId := none } else e,
            employeeProject := db.employeeProject.filter fun pr => pr.1 != i,
            employeeRole := db.employeeRole.filter fun pr => pr.1 != i })) := by
  refine ⟨?_, ?_, ?_, ?_⟩
  · intro db i h
    unfold DepartmentRepository.delete DepartmentRepository.get_by_id
    rw [find?_by_id_none (fun d => d.id) db.departments i h]
  · intro db i l1 dep l2 hsplit hdep h1 h2
    unfold DepartmentRepository.delete DepartmentRepository.get_by_id
    rw [hsplit, find?_by_id_middle (fun d => d.id) l1 dep l2 i hdep h1,
      filter_by_id_middle (fun d => d.id) l1 dep l2 i hdep h1 h2]
  · intro db i h
    unfold EmployeeRepository.delete EmployeeRepository.get_by_id
    rw [find?_by_id_none (fun e => e.id) db.employees i h]
  · intro db i l1 emp l2 hsplit hemp h1 h2
    unfold EmployeeRepository.delete EmployeeRepository.get_by_id
    rw [hsplit, find?_by_id_middle (fun e => e.id) l1 emp l2 i hemp h1,
      filter_by_id_middle (fun e => e.id) l1 emp l2 i hemp h1 h2]

theorem entity_delete_witness :
    DepartmentRepository.delete
      ⟨[⟨1, "HR", "HQ", 100⟩, ⟨2, "IT", "HQ", 200⟩],
        [⟨1, "Ann", some 30, some "a@x", 1000, 10, ⟨2023, 1, 5⟩, true, "F", some 2, none⟩],
        [], [], [], []⟩ 2
      = (some ⟨2, "IT", "HQ", 200⟩,
        ⟨[⟨1, "HR", "HQ", 100⟩],
          [⟨1, "Ann", some 30, some "a@x", 1000, 10, ⟨2023, 1, 5⟩, true, "F", none, none⟩],
          [], [], [], []⟩) := by
  rw [entity_delete_absent_or_removes_row.2.1
    ⟨[⟨1, "HR", "HQ", 100⟩, ⟨2, "IT", "HQ", 200⟩],
      [⟨1, "Ann", some 30, some "a@x", 1000, 10, ⟨2023, 1, 5⟩, true, "F", some 2, none⟩],
      [], [], [], []⟩ 2
    [⟨1, "HR", "HQ", 100⟩] ⟨2, "IT", "HQ", 200⟩ [] rfl rfl (by decide) (by decide)]
  decide

/-! ### Demo-data seeding (`POST /seed-data`) -/

/-- Oracle supplying every random / faker-generated value used by
`seed_data`: the argument is the index of the entity being generated.
`empDep` models `random.choice(dep_ids)` by choosing an index into the list
of seeded department ids (taken modulo the list length, as `random.choice`
always returns an element of its non-empty argument). -/
structure SeedOracle where
  depBudget : Nat → Int
  depLocation : Nat → String
  projBudget : Nat → Int
  projLocation : Nat → String
  empName : Nat → String
  empAge : Nat → Nat
  empEmail : Nat → String
  empSalary : Nat → Int
  empBonus : Nat → Int
  empHireDate : Nat → PyDate
  empActive : Nat → Bool
  empGender : Nat → String
  empDep : Nat → Nat
  empManager : Nat → Option Nat
  empProjects : Nat → List Nat
  empRoles : Nat → List Nat

/-- `seed_data`: clear every entity and association table, then insert
`n_departments` departments (names drawn from a fixed seven-name list),
five roles, four projects, and `n_employees` employees, each employee's
`dep_id` drawn by `random.choice` from the seeded department ids. Primary
keys restart from 1 after the full clear. The prior store contents do not
survive: the result is built solely from the inserted rows. -/
def seed_data (n_departments n_employees : Nat) (o : SeedOracle) (_db : Store) : Store :=
  let dep_names := ["HR", "Finance", "IT", "Sales", "Marketing", "Support", "Operations"]
  let departments := (dep_names.take n_departments).enum.map fun p =>
    ({ id := p.1 + 1, name := p.2, location := o.depLocation p.1,
       budget := o.depBudget p.1 } : DepartmentRow)
  let dep_ids := departments.map fun d => d.id
  let role_names := ["Engineer", "Manager", "Analyst", "Admin", "Intern"]
  let roles := role_names.enum.map fun p => ({ id := p.1 + 1, name := p.2 } : RoleRow)
  let proj_names := ["ProjectA", "ProjectB", "ProjectC", "ProjectD"]
  let projects := proj_names.enum.map fun p =>
    ({ id := p.1 + 1, name := p.2, location := o.projLocation p.1,
       budget := o.projBudget p.1 } : ProjectRow)
  let employees := (List.range n_employees).map fun i =>
    ({ id := i + 1, name := o.empName i, age := some (o.empAge i),
       email := some (o.empEmail i), salary := o.empSalary i, bonus := o.empBonus i,
       hireDate := o.empHireDate i, active := o.empActive i, gender := o.empGender i,
       depId := some (dep_ids.getD (o.empDep i % dep_ids.length) 0),
       managerId := o.empManager i } : EmployeeRow)
  { departments := departments, employees := employees, projects := projects,
    roles := roles,
    employeeProject := (List.range n_employees).flatMap fun i =>
      (o.empProjects i).map fun p => (i + 1, p),
    employeeRole := (List.range n_employees).flatMap fun i =>
      (o.empRoles i).map fun r => (i + 1, r) }

/-- **C8**: seeding with `n_departments = 3` and `n_employees = 10` leaves the
store with exactly 3 department rows and exactly 10 employee rows, every
employee's `dep_id` being the id of one of the 3 seeded departments; the
result is independent of the prior store contents (all rows are cleared
first). -/
theorem seed_data_three_ten (o : SeedOracle) (db : Store) :
    (seed_data 3 10 o db).departments.length = 3 ∧
    (seed_data 3 10 o db).employees.length = 10 ∧
    ((seed_data 3 10 o db).employees.all fun e =>
      ((seed_data 3 10 o db).departments.map fun d => some d.id).contains e.depId) = true ∧
    ∀ db', seed_data 3 10 o db' = seed_data 3 10 o db := by
  have hdep : ((seed_data 3 10 o db).departments.map fun d => some d.id)
      = [some 1, some 2, some 3] := rfl
  have hlen : (seed_data 3 10 o db).departments.length = 3 := by
    have h := congrArg List.length hdep
    simpa using h
  refine ⟨hlen, by simp [seed_data], ?_, fun db' => rfl⟩
  rw [List.all_eq_true]
  intro e he
  rw [hdep]
  simp only [seed_data, List.mem_map, List.mem_range] at he
  obtain ⟨i, _, rfl⟩ := he
  show (([some 1, some 2, some 3] : List (Option Nat)).contains
    (some (([1, 2, 3] : List Nat).getD (o.empDep i % 3) 0))) = true
  have h3 : o.empDep i % 3 = 0 ∨ o.empDep i % 3 = 1 ∨ o.empDep i % 3 = 2 := by omega
  rcases h3 with h | h | h <;> rw [h] <;> rfl

/-! ### Dynamic query evaluator (`POST /run-query`) -/

/-- A Python value as it appears in evaluator results. -/
inductive PyVal where
  | vstr : String → PyVal
  | vint : Int → PyVal
  | vbool : Bool → PyVal
  | vdate : PyDate → PyVal
  | vnone : PyVal
deriving DecidableEq, Repr

/-- Left-pad the decimal digits of `n` with zeros to width `w`. -/
def zeroPad (w : Nat) (n : Nat) : String :=
  ⟨List.replicate (w - (natDigits n).length) '0' ++ natDigits n⟩

/-- Python `date.isoformat()`: `YYYY-MM-DD` with zero padding. -/
def isoformat (d : PyDate) : String :=
  zeroPad 4 d.year ++ "-" ++ zeroPad 2 d.month ++ "-" ++ zeroPad 2 d.day

/-- Python `str()` of an integer. -/
def intToString : Int → String
  | .ofNat n => natToString n
  | .negSucc n => "-" ++ natToString (n + 1)

/-- Python `str()` of a value. -/
def pyStr : PyVal → String
  | .vstr s => s
  | .vint i => intToString i
  | .vbool b => if b then "True" else "False"
  | .vdate d => isoformat d
  | .vnone => "None"

/-- `isinstance(v, date)`. -/
def isDate : PyVal → Bool
  | .vdate _ => true
  | _ => false

/-- The per-value step of `serialize_row`: a date becomes its ISO-8601
string, everything else is kept as-is. -/
def serializeVal (v : PyVal) : PyVal :=
  match v with
  | .vdate d => .vstr (isoformat d)
  | v => v

/-- The three shapes `serialize_row` distinguishes: an object with a
`__dict__` (an ORM entity, whose attribute dict may carry the
`_sa_instance_state` bookkeeping key), a plain dict, and anything else
(a raw scalar). -/
inductive Row where
  | obj : List (String × PyVal) → Row
  | dict : List (String × PyVal) → Row
  | scalar : PyVal → Row
deriving DecidableEq, Repr

/-- `serialize_row`: copy an object's `__dict__` dropping
`_sa_instance_state` and ISO-render its dates; ISO-render a dict's dates in
place; wrap anything else as `{"value": str(row)}`. -/
def serialize_row : Row → List (String × PyVal)
  | .obj d =>
    (d.filter fun kv => kv.1 != "_sa_instance_state").map fun kv => (kv.1, serializeVal kv.2)
  | .dict d => d.map fun kv => (kv.1, serializeVal kv.2)
  | .scalar v => [("value", .vstr (pyStr v))]

/-- One entry of the in-memory `query_results` log. -/
structure ResultEntry where
  query : String
  result : Option (List (List (String × PyVal)))
  error : Option String
deriving DecidableEq, Repr

/-- What `eval` can hand back: a list of rows, or a single non-list value. -/
inductive EvalOut where
  | list : List Row → EvalOut
  | single : Row → EvalOut
deriving DecidableEq, Repr

/-- `run_query`: evaluate the whole submitted text with one `eval` call; on
success serialize the row list (or the single value) and append a result
entry; on an exception append `{query, result: None, error: str(e)}`. The
evaluator itself (Python's `eval`) is passed in as a function. -/
def run_query (evalq : String → Except String EvalOut) (query : String)
    (query_results : List ResultEntry) : List ResultEntry :=
  match evalq query with
  | .ok (.list rows) => query_results ++ [⟨query, some (rows.map serialize_row), none⟩]
  | .ok (.single row) => query_results ++ [⟨query, some [serialize_row row], none⟩]
  | .error e => query_results ++ [⟨query, none, some e⟩]

theorem serializeVal_not_date (v : PyVal) : isDate (serializeVal v) = false := by
  cases v <;> rfl

theorem serializeVal_of_not_date (v : PyVal) (h : isDate v = false) :
    serializeVal v = v := by
  cases v with
  | vdate d => simp [isDate] at h
  | vstr s => rfl
  | vint i => rfl
  | vbool b => rfl
  | vnone => rfl

/-- **C9**: `serialize_row` normalizes every successful result into mapping
records: no date-typed value survives serialization; a dict row keeps its
column names, keeps its non-date values unchanged, and renders each
date-typed value as its ISO-8601 string; an object row keeps the column
names of its `__dict__` minus `_sa_instance_state`; a raw scalar becomes the
single record `{"value": stringified-scalar}`. -/
theorem serialize_row_normalizes :
    (∀ row, ((serialize_row row).all fun kv => !(isDate kv.2)) = true) ∧
    (∀ d, (serialize_row (.dict d)).map Prod.fst = d.map Prod.fst) ∧
    (∀ d k v, (k, v) ∈ d → isDate v = false → (k, v) ∈ serialize_row (.dict d)) ∧
    (∀ d k dt, (k, .vdate dt) ∈ d →
      (k, .vstr (isoformat dt)) ∈ serialize_row (.dict d)) ∧
    (∀ d, (serialize_row (.obj d)).map Prod.fst
      = (d.filter fun kv => kv.1 != "_sa_instance_state").map Prod.fst) ∧
    (∀ v, serialize_row (.scalar v) = [("value", .vstr (pyStr v))]) := by
  refine ⟨?_, ?_, ?_, ?_, ?_, fun v => rfl⟩
  · intro row
    rw [List.all_eq_true]
    intro kv hkv
    cases row with
    | obj d =>
      simp only [serialize_row] at hkv
      obtain ⟨kv0, _, rfl⟩ := List.mem_map.mp hkv
      simp [serializeVal_not_date]
    | dict d =>
      simp only [serialize_row] at hkv
      obtain ⟨kv0, _, rfl⟩ := List.mem_map.mp hkv
      simp [serializeVal_not_date]
    | scalar v =>
      simp only [serialize_row, List.mem_singleton] at hkv
      subst hkv
      simp [isDate]
  · intro d
    simp only [serialize_row, List.map_map]
    exact List.map_congr_left fun kv _ => rfl
  · intro d k v hmem hnd
    simp only [serialize_row]
    have h := List.mem_map_of_mem (fun kv => (kv.1, serializeVal kv.2)) hmem
    simpa [serializeVal_of_not_date v hnd] using h
  · intro d k dt hmem
    simp only [serialize_row]
    have h := List.mem_map_of_mem (fun kv => (kv.1, serializeVal kv.2)) hmem
    simpa [serializeVal] using h
  · intro d
    simp only [serialize_row, List.map_map]
    exact List.map_congr_left fun kv _ => rfl

theorem serialize_row_normalizes_witness :
    ("hire_date", PyVal.vstr (isoformat ⟨2023, 1, 5⟩))
      ∈ serialize_row (.dict [("hire_date", PyVal.vdate ⟨2023, 1, 5⟩)]) :=
  serialize_row_normalizes.2.2.2.1
    [("hire_date", PyVal.vdate ⟨2023, 1, 5⟩)] "hire_date" ⟨2023, 1, 5⟩ (by decide)

/-- CPython's `eval` on the two-line text "1/0\nEmployee" raises a
`SyntaxError` while parsing: the full multi-line submission is one (invalid)
expression. This oracle records that behaviour of the black-box `eval` for
the counterexample below. -/
def evalTwoLineBatch : String → Except String EvalOut :=
  fun _ => .error "invalid syntax (<string>, line 2)"

/-- **C1 counterexample**: submitting a batch of one fault-inducing line and
one valid line produces exactly ONE result-log entry — the whole text, with
`error` set and `result` none — not one error entry plus one result entry:
`run_query` never splits the submission into lines. -/
theorem run_query_no_line_splitting :
    run_query evalTwoLineBatch "1/0\nEmployee" []
      = [⟨"1/0\nEmployee", none, some "invalid syntax (<string>, line 2)"⟩] := rfl

/-- **C1 (amended)**: `run_query` passes the entire submission, newlines
included, to a single `eval` call and appends exactly one entry to the
result log per submission: on a fault the entry is `{query: full text,
result: none, error: message}`; on success the entry has `result` set and
`error` none. Fault isolation therefore holds across separate submissions,
not across lines within one submission. -/
theorem run_query_single_entry (evalq : String → Except String EvalOut)
    (q : String) (log : List ResultEntry) :
    (run_query evalq q log).length = log.length + 1 ∧
    ∃ entry, run_query evalq q log = log ++ [entry] ∧ entry.query = q ∧
      ((∃ e, evalq q = .error e ∧ entry = ⟨q, none, some e⟩) ∨
       (entry.error = none ∧ ∃ res, entry.result = some res)) := by
  cases he : evalq q with
  | error e =>
    refine ⟨by simp [run_query, he], ⟨q, none, some e⟩, by simp [run_query, he],
      rfl, Or.inl ⟨e, rfl, rfl⟩⟩
  | ok out =>
    cases out with
    | list rows =>
      refine ⟨by simp [run_query, he], ⟨q, some (rows.map serialize_row), none⟩,
        by simp [run_query, he], rfl, Or.inr ⟨rfl, rows.map serialize_row, rfl⟩⟩
    | single row =>
      refine ⟨by simp [run_query, he], ⟨q, some [serialize_row row], none⟩,
        by simp [run_query, he], rfl, Or.inr ⟨rfl, [serialize_row row], rfl⟩⟩
